import Mathlib

/-!
Verification of the `Writer` connection pool of pynsq (`src/nsq/writer.py`).

The Writer keeps a pool of connections to nsqd endpoints (`self.conns`, a
Python dict keyed by connection identity), a per-connection FIFO callback
queue (`conn.callback_queue`, a Python list), dispatches `pub`/`mpub`
commands to a randomly chosen ready connection, and on events
(`response`/`error`, `ready`, `close`) updates the pool and resolves
callbacks.

Embedding choices:
* A Python dict is modelled as an association list with the dict update and
  delete operations (`dictSet`, `dictDel`); the Writer maintains unique keys,
  for which `dictDel` (which drops every binding of the key) agrees with the
  dict `del` statement.
* A callback is identified by a natural number.  Whether a given callback
  raises when invoked is an environment parameter `raises : Nat → Bool`;
  whether `conn.send` raises is a parameter `sendFails : Nat → Bool` over
  connection object references.
* Endpoint hosts are numbers (their string content is irrelevant to the
  claims); a connection identity (`conn.id`, derived from the endpoint) is
  the pair `(host, port)`.  Distinct connection objects to the same endpoint
  are distinguished by an object reference `ref`.
* Each handler is a pure function from the Writer state to a result
  `HResult`: the new state, the list of externally visible actions it
  performed (callback invocations, sends, closes, scheduled reconnects,
  logged exceptions) in order, and a flag `exn` telling whether an uncaught
  exception escaped the handler.  State mutations performed before a raise
  persist, as in Python.
-/

universe u v

variable {α : Type u} {β : Type v}

/-- Lookup in an association list, modelling Python dict indexing /
membership tests. -/
def dictGet [DecidableEq α] : List (α × β) → α → Option β
  | [], _ => none
  | p :: rest, k => if p.1 = k then some p.2 else dictGet rest k

/-- Dict update `d[k] = v`: replaces the binding of `k` if present, else
appends a new binding. -/
def dictSet [DecidableEq α] : List (α × β) → α → β → List (α × β)
  | [], k, v => [(k, v)]
  | p :: rest, k, v => if p.1 = k then (k, v) :: rest else p :: dictSet rest k v

/-- Dict deletion `del d[k]`: drops every binding of `k` (the Writer keeps
keys unique, so this agrees with deleting the single binding). -/
def dictDel [DecidableEq α] : List (α × β) → α → List (α × β)
  | [], _ => []
  | p :: rest, k => if p.1 = k then dictDel rest k else p :: dictDel rest k

/-- Whether the keys of an association list are pairwise distinct (the
invariant a Python dict has by construction). -/
def keysNodup [DecidableEq α] : List (α × β) → Bool
  | [] => true
  | p :: rest => (dictGet rest p.1).isNone && keysNodup rest

/-- Error values delivered to callbacks (`nsq.SendError('no connections')`
and `nsq.ConnectionClosedError()`). -/
inductive NsqError
  | sendError
  | connectionClosedError
  deriving DecidableEq, Repr

/-- The second argument a callback is invoked with: a decoded success
payload or an error value. -/
inductive CBData
  | ok (payload : Nat)
  | err (e : NsqError)
  deriving DecidableEq, Repr

/-- An encoded command handed to `conn.send`: `nsq.pub(topic, msg)` or
`nsq.mpub(topic, msgs)`. -/
inductive Cmd
  | pubCmd (topic : Nat) (msg : Nat)
  | mpubCmd (topic : Nat) (msgs : List Nat)
  deriving DecidableEq, Repr

/-- One `AsyncConn` object: `ref` is the object identity (two connection
attempts to the same endpoint are distinct objects), `host`/`port` the
endpoint. -/
structure Conn where
  ref : Nat
  host : Nat
  port : Nat
  deriving DecidableEq, Repr

/-- The connection identity `conn.id`, derived from the endpoint and shared
by every connection object to that endpoint. -/
def Conn.cid (c : Conn) : Nat × Nat := (c.host, c.port)

/-- Externally visible actions a handler performs, in program order. -/
inductive WAction
  | invoke (cb : Nat) (conn : Option Nat) (data : CBData)
  | sendCmd (ref : Nat) (cmd : Cmd)
  | closeConn (ref : Nat)
  | connectConn (ref : Nat)
  | scheduleReconnect (host : Nat) (port : Nat) (delay : Nat)
  | logException
  deriving DecidableEq, Repr

/-- The Writer state: the pool `self.conns` (dict from connection identity
to the pooled connection object) and every connection object's
`callback_queue` (keyed by object reference). -/
structure WState where
  conns : List ((Nat × Nat) × Conn)
  queues : List (Nat × List Nat)
  deriving DecidableEq, Repr

/-- Result of running one handler: final state, actions in order, and
whether an uncaught exception escaped the handler. -/
structure HResult where
  st : WState
  acts : List WAction
  exn : Bool
  deriving DecidableEq, Repr

/-- Read a connection object's `callback_queue`. -/
def dictGetQ (qs : List (Nat × List Nat)) (ref : Nat) : List Nat :=
  (dictGet qs ref).getD []

/-- The connection `random.choice(self.conns.values())` picks, with the
random draw supplied as an index `choice` into the pool's values. -/
def chosenConn (st : WState) (choice : Nat) : Conn :=
  (st.conns.map Prod.snd).getD (choice % st.conns.length) ⟨0, 0, 0⟩

/-- Embeds `Writer._pub` (writer.py lines 108-124).  If the pool is empty
the callback is invoked synchronously, unprotected, with
`SendError('no connections')` and the method returns.  Otherwise a random
pool member is chosen, the callback is appended to its `callback_queue`,
and the command is sent; if `send` raises, the exception is logged and the
connection is closed, and nothing propagates to the caller. -/
def pubDispatch (raises sendFails : Nat → Bool) (cb : Nat) (cmd : Cmd)
    (choice : Nat) (st : WState) : HResult :=
  if st.conns.isEmpty then
    ⟨st, [WAction.invoke cb none (CBData.err NsqError.sendError)], raises cb⟩
  else
    let c := chosenConn st choice
    let st2 : WState :=
      { st with queues := dictSet st.queues c.ref (dictGetQ st.queues c.ref ++ [cb]) }
    if sendFails c.ref then
      ⟨st2, [WAction.logException, WAction.closeConn c.ref], false⟩
    else
      ⟨st2, [WAction.sendCmd c.ref cmd], false⟩

/-- Embeds `Writer.pub` (writer.py lines 98-99). -/
def pub (raises sendFails : Nat → Bool) (cb topic msgv choice : Nat)
    (st : WState) : HResult :=
  pubDispatch raises sendFails cb (Cmd.pubCmd topic msgv) choice st

/-- The argument passed to `Writer.mpub` as `msg`: a single string, a
list or tuple (ordered), a set (unordered), or a value of any other type. -/
inductive MsgArg
  | strMsg (s : Nat)
  | listMsg (msgs : List Nat)
  | setMsg (msgs : List Nat)
  | otherMsg
  deriving DecidableEq, Repr

/-- Embeds the argument normalisation of `Writer.mpub` (writer.py lines
102-104): a string is wrapped into a one-element list; then
`assert isinstance(msg, (list, set, tuple))`, with `none` for a failed
assertion.  No emptiness check is performed. -/
def mpubValidate : MsgArg → Option (List Nat)
  | MsgArg.strMsg s => some [s]
  | MsgArg.listMsg msgs => some msgs
  | MsgArg.setMsg msgs => some msgs
  | MsgArg.otherMsg => none

/-- Embeds `Writer.mpub` (writer.py lines 101-106): normalise the
argument, then delegate to `_pub` with the `mpub` command. -/
def mpub (raises sendFails : Nat → Bool) (cb topic : Nat) (msg : MsgArg)
    (choice : Nat) (st : WState) : Option HResult :=
  (mpubValidate msg).map
    (fun msgs => pubDispatch raises sendFails cb (Cmd.mpubCmd topic msgs) choice st)

/-- Embeds `Writer._on_connection_response` (writer.py lines 126-129),
wired to both the `response` and the `error` event: if the connection's
`callback_queue` is non-empty, pop index 0 and invoke it, unprotected, with
the connection and the decoded payload; otherwise do nothing. -/
def onConnectionResponse (raises : Nat → Bool) (c : Conn) (d : CBData)
    (st : WState) : HResult :=
  match dictGetQ st.queues c.ref with
  | [] => ⟨st, [], false⟩
  | cb :: rest =>
      ⟨{ st with queues := dictSet st.queues c.ref rest },
       [WAction.invoke cb (some c.ref) d], raises cb⟩

/-- Embeds `Writer._on_connection_ready` (writer.py lines 156-163): if a
connection with the same identity is already pooled, close the new one and
return; otherwise register it in the pool under its identity. -/
def onConnectionReady (c : Conn) (st : WState) : HResult :=
  if (dictGet st.conns c.cid).isSome then
    ⟨st, [WAction.closeConn c.ref], false⟩
  else
    ⟨{ st with conns := dictSet st.conns c.cid c }, [], false⟩

/-- The draining loop of `Writer._on_connection_close` (writer.py lines
169-173): iterate over the closing connection's `callback_queue` (without
removing entries), invoking each callback with `ConnectionClosedError`
inside a try/except that logs any exception the callback raises. -/
def drainActs (raises : Nat → Bool) (ref : Nat) : List Nat → List WAction
  | [] => []
  | cb :: rest =>
      WAction.invoke cb (some ref) (CBData.err NsqError.connectionClosedError) ::
        ((if raises cb then [WAction.logException] else []) ++ drainActs raises ref rest)

/-- Embeds `Writer._on_connection_close` (writer.py lines 165-179): delete
the connection's identity from the pool if present; invoke every entry of
its `callback_queue` with `ConnectionClosedError`, tolerating callback
exceptions; then schedule a reconnect to the same endpoint 15 seconds
later.  The handler itself never raises. -/
def onConnectionClose (raises : Nat → Bool) (c : Conn) (st : WState) : HResult :=
  ⟨{ st with conns := dictDel st.conns c.cid },
   drainActs raises c.ref (dictGetQ st.queues c.ref) ++
     [WAction.scheduleReconnect c.host c.port 15],
   false⟩

/-- Embeds `Writer.connect_to_nsqd` (writer.py lines 136-154): build a
fresh connection object (reference `newRef`) for the endpoint and wire its
events; if the identity is already tracked in the pool, return without
connecting; otherwise initiate the connect and initialise the object's
`callback_queue` to the empty list. -/
def connectToNsqd (newRef host port : Nat) (st : WState) : HResult :=
  if (dictGet st.conns (host, port)).isSome then
    ⟨st, [], false⟩
  else
    ⟨{ st with queues := dictSet st.queues newRef [] },
     [WAction.connectConn newRef], false⟩

/-- Iterated dispatch: run `Writer._pub` once per triple of callback,
command and random draw, threading the state and collecting the actions of
every dispatch in order. -/
def pubSeq (raises sendFails : Nat → Bool) :
    List (Nat × Cmd × Nat) → WState → WState × List WAction
  | [], st => (st, [])
  | p :: rest, st =>
      let r := pubDispatch raises sendFails p.1 p.2.1 p.2.2 st
      let q := pubSeq raises sendFails rest r.st
      (q.1, r.acts ++ q.2)

/-- Iterated delivery of `response`/`error` frames on one connection,
collecting the actions of every handler run in order. -/
def deliverResponses (raises : Nat → Bool) (c : Conn) :
    List CBData → WState → WState × List WAction
  | [], st => (st, [])
  | d :: rest, st =>
      let r := onConnectionResponse raises c d st
      let p := deliverResponses raises c rest r.st
      (p.1, r.acts ++ p.2)

/-- The callback invocations among a handler's actions, in order: callback,
connection argument, data argument. -/
def invocations : List WAction → List (Nat × Option Nat × CBData)
  | [] => []
  | WAction.invoke cb oc d :: rest => (cb, oc, d) :: invocations rest
  | _ :: rest => invocations rest

/-- Just the callbacks invoked, in order. -/
def invokedCBs (acts : List WAction) : List Nat :=
  (invocations acts).map (fun t => t.1)

/-- The reconnect attempts scheduled among a handler's actions:
host, port, delay. -/
def reconnectsOf : List WAction → List (Nat × Nat × Nat)
  | [] => []
  | WAction.scheduleReconnect h p d :: rest => (h, p, d) :: reconnectsOf rest
  | _ :: rest => reconnectsOf rest

/-- The connection objects closed among a handler's actions. -/
def closesOf : List WAction → List Nat
  | [] => []
  | WAction.closeConn r :: rest => r :: closesOf rest
  | _ :: rest => closesOf rest

/-- The commands handed to `conn.send` among a handler's actions. -/
def sendsOf : List WAction → List (Nat × Cmd)
  | [] => []
  | WAction.sendCmd r c :: rest => (r, c) :: sendsOf rest
  | _ :: rest => sendsOf rest

/-! ## Basic lemmas about the dict model and action extractors -/

theorem dictGet_set_self [DecidableEq α] (m : List (α × β)) (k : α) (v : β) :
    dictGet (dictSet m k v) k = some v := by
  induction m with
  | nil => simp [dictGet, dictSet]
  | cons p rest ih =>
      by_cases h : p.1 = k
      · simp [dictSet, h, dictGet]
      · simp [dictSet, h, dictGet, ih]

theorem dictGet_set_ne [DecidableEq α] (m : List (α × β)) (k k2 : α) (v : β)
    (h : k2 ≠ k) : dictGet (dictSet m k v) k2 = dictGet m k2 := by
  have h2 : k ≠ k2 := Ne.symm h
  induction m with
  | nil => simp [dictGet, dictSet, h2]
  | cons p rest ih =>
      by_cases hp : p.1 = k
      · subst hp
        simp [dictSet, dictGet, h2]
      · simp [dictSet, hp, dictGet, ih]

theorem dictGet_del_self [DecidableEq α] (m : List (α × β)) (k : α) :
    dictGet (dictDel m k) k = none := by
  induction m with
  | nil => simp [dictGet, dictDel]
  | cons p rest ih =>
      by_cases h : p.1 = k
      · simp [dictDel, h, ih]
      · simp [dictDel, h, dictGet, ih]

theorem dictGet_del_ne [DecidableEq α] (m : List (α × β)) (k k2 : α)
    (h : k2 ≠ k) : dictGet (dictDel m k) k2 = dictGet m k2 := by
  have h2 : k ≠ k2 := Ne.symm h
  induction m with
  | nil => simp [dictDel]
  | cons p rest ih =>
      by_cases hp : p.1 = k
      · subst hp
        simp [dictDel, dictGet, h2, ih]
      · simp [dictDel, hp, dictGet, ih]

theorem dictDel_idem [DecidableEq α] (m : List (α × β)) (k : α) :
    dictDel (dictDel m k) k = dictDel m k := by
  induction m with
  | nil => simp [dictDel]
  | cons p rest ih =>
      by_cases h : p.1 = k
      · simp [dictDel, h, ih]
      · simp [dictDel, h, ih]

theorem keysNodup_set [DecidableEq α] (m : List (α × β)) (k : α) (v : β)
    (h : keysNodup m = true) : keysNodup (dictSet m k v) = true := by
  induction m with
  | nil => simp [dictSet, keysNodup, dictGet]
  | cons p rest ih =>
      simp only [keysNodup, Bool.and_eq_true] at h
      by_cases hk : p.1 = k
      · subst hk
        simp only [dictSet, if_pos rfl, keysNodup, Bool.and_eq_true]
        exact h
      · simp only [dictSet, if_neg hk, keysNodup, Bool.and_eq_true]
        refine ⟨?_, ih h.2⟩
        rw [dictGet_set_ne rest k p.1 v hk]
        exact h.1

theorem invocations_append (l1 l2 : List WAction) :
    invocations (l1 ++ l2) = invocations l1 ++ invocations l2 := by
  induction l1 with
  | nil => simp [invocations]
  | cons a rest ih => cases a <;> simp [invocations, ih]

theorem reconnectsOf_append (l1 l2 : List WAction) :
    reconnectsOf (l1 ++ l2) = reconnectsOf l1 ++ reconnectsOf l2 := by
  induction l1 with
  | nil => simp [reconnectsOf]
  | cons a rest ih => cases a <;> simp [reconnectsOf, ih]

theorem closesOf_append (l1 l2 : List WAction) :
    closesOf (l1 ++ l2) = closesOf l1 ++ closesOf l2 := by
  induction l1 with
  | nil => simp [closesOf]
  | cons a rest ih => cases a <;> simp [closesOf, ih]

theorem invocations_drainActs (raises : Nat → Bool) (ref : Nat) (q : List Nat) :
    invocations (drainActs raises ref q)
      = q.map (fun cb => (cb, some ref, CBData.err NsqError.connectionClosedError)) := by
  induction q with
  | nil => simp [drainActs, invocations]
  | cons cb rest ih =>
      by_cases h : raises cb = true
      · simp [drainActs, h, invocations, invocations_append, ih]
      · simp only [Bool.not_eq_true] at h
        simp [drainActs, h, invocations, ih]

theorem reconnectsOf_drainActs (raises : Nat → Bool) (ref : Nat) (q : List Nat) :
    reconnectsOf (drainActs raises ref q) = [] := by
  induction q with
  | nil => simp [drainActs, reconnectsOf]
  | cons cb rest ih =>
      by_cases h : raises cb = true
      · simp [drainActs, h, reconnectsOf, reconnectsOf_append, ih]
      · simp only [Bool.not_eq_true] at h
        simp [drainActs, h, reconnectsOf, ih]

/-! ## Claim theorems -/

/-- C2: when the close event fires for a connection with K queued
callbacks, the connection identity is removed from the pool if present
(removal idempotent: a second close leaves the pool map unchanged, and
other identities are untouched), each of the K queued callbacks is invoked
exactly once with ConnectionClosedError in original FIFO enqueue order, and
exactly one reconnect attempt to the same endpoint is scheduled, with the
fixed delay 15. -/
theorem close_drains_all_and_schedules_reconnect
    (raises : Nat → Bool) (c : Conn) (st : WState) :
    dictGet (onConnectionClose raises c st).st.conns c.cid = none
  ∧ (∀ k, k ≠ c.cid →
      dictGet (onConnectionClose raises c st).st.conns k = dictGet st.conns k)
  ∧ (onConnectionClose raises c (onConnectionClose raises c st).st).st.conns
      = (onConnectionClose raises c st).st.conns
  ∧ invocations (onConnectionClose raises c st).acts
      = (dictGetQ st.queues c.ref).map
          (fun cb => (cb, some c.ref, CBData.err NsqError.connectionClosedError))
  ∧ reconnectsOf (onConnectionClose raises c st).acts = [(c.host, c.port, 15)] := by
  refine ⟨?_, ?_, ?_, ?_, ?_⟩
  · simp [onConnectionClose, dictGet_del_self]
  · intro k hk
    simp [onConnectionClose, dictGet_del_ne st.conns c.cid k hk]
  · simp [onConnectionClose, dictDel_idem]
  · simp [onConnectionClose, invocations_append, invocations_drainActs, invocations]
  · simp [onConnectionClose, reconnectsOf_append, reconnectsOf_drainActs, reconnectsOf]

/-- C10: the close handler mutates only the pool map.  The closing
connection's callback queue (indeed the whole queue table) is left exactly
as it was, so a second close event on the same connection object performs
the same callback invocations again. -/
theorem close_preserves_callback_queue
    (raises : Nat → Bool) (c : Conn) (st : WState) :
    (onConnectionClose raises c st).st.queues = st.queues
  ∧ invocations (onConnectionClose raises c (onConnectionClose raises c st).st).acts
      = invocations (onConnectionClose raises c st).acts := by
  constructor
  · simp [onConnectionClose]
  · simp [onConnectionClose]

/-- C3: with an empty pool, a dispatch invokes the caller's callback
synchronously exactly once, with a null connection and the
no-connections SendError, hands nothing to any send primitive, and leaves
the whole state (pool and every callback queue) untouched. -/
theorem no_connections_synchronous_error
    (raises sendFails : Nat → Bool) (cb : Nat) (cmd : Cmd) (choice : Nat)
    (st : WState) (h : st.conns = []) :
    invocations (pubDispatch raises sendFails cb cmd choice st).acts
      = [(cb, none, CBData.err NsqError.sendError)]
  ∧ (pubDispatch raises sendFails cb cmd choice st).st = st
  ∧ sendsOf (pubDispatch raises sendFails cb cmd choice st).acts = [] := by
  refine ⟨?_, ?_, ?_⟩ <;> simp [pubDispatch, h, invocations, sendsOf]

/-- Witness for C3 at a concrete empty-pool state carrying a non-empty
callback queue. -/
theorem no_connections_synchronous_error_witness :
    (⟨[], [(7, [3])]⟩ : WState).conns = []
  ∧ (invocations (pubDispatch (fun _ => false) (fun _ => false) 5
        (Cmd.pubCmd 1 2) 0 ⟨[], [(7, [3])]⟩).acts
      = [(5, none, CBData.err NsqError.sendError)]
    ∧ (pubDispatch (fun _ => false) (fun _ => false) 5
        (Cmd.pubCmd 1 2) 0 ⟨[], [(7, [3])]⟩).st = ⟨[], [(7, [3])]⟩
    ∧ sendsOf (pubDispatch (fun _ => false) (fun _ => false) 5
        (Cmd.pubCmd 1 2) 0 ⟨[], [(7, [3])]⟩).acts = []) :=
  ⟨rfl, no_connections_synchronous_error (fun _ => false) (fun _ => false) 5
    (Cmd.pubCmd 1 2) 0 ⟨[], [(7, [3])]⟩ rfl⟩

/-- C7: on a response or error event, if the connection's callback queue is
non-empty exactly the oldest entry is popped and invoked with the
connection and the decoded payload (other queues and the pool untouched);
if the queue is empty the frame is silently ignored: no callback invoked,
no exception, no state change. -/
theorem response_pops_oldest_or_ignores
    (raises : Nat → Bool) (c : Conn) (d : CBData) (st : WState) :
    (dictGetQ st.queues c.ref = [] →
       onConnectionResponse raises c d st = ⟨st, [], false⟩)
  ∧ (∀ cb q, dictGetQ st.queues c.ref = cb :: q →
       invocations (onConnectionResponse raises c d st).acts = [(cb, some c.ref, d)]
     ∧ dictGetQ (onConnectionResponse raises c d st).st.queues c.ref = q
     ∧ (∀ r2, r2 ≠ c.ref →
          dictGetQ (onConnectionResponse raises c d st).st.queues r2
            = dictGetQ st.queues r2)
     ∧ (onConnectionResponse raises c d st).st.conns = st.conns) := by
  constructor
  · intro h
    simp [onConnectionResponse, h]
  · intro cb q h
    have h2 : (dictGet st.queues c.ref).getD [] = cb :: q := h
    refine ⟨?_, ?_, ?_, ?_⟩
    · simp [onConnectionResponse, h, invocations]
    · simp [onConnectionResponse, h2, dictGetQ, dictGet_set_self]
    · intro r2 hr
      simp [onConnectionResponse, h2, dictGetQ, dictGet_set_ne st.queues c.ref r2 q hr]
    · simp [onConnectionResponse, h, h2]

/-- Witness for C7: a concrete connection with queue `[4, 5]` receiving a
success payload pops callback 4 and leaves `[5]`. -/
theorem response_pops_oldest_or_ignores_witness :
    dictGetQ (⟨[], [(9, [4, 5])]⟩ : WState).queues (Conn.ref ⟨9, 0, 0⟩) = 4 :: [5]
  ∧ (invocations (onConnectionResponse (fun _ => false) ⟨9, 0, 0⟩ (CBData.ok 7)
        ⟨[], [(9, [4, 5])]⟩).acts = [(4, some 9, CBData.ok 7)]
    ∧ dictGetQ (onConnectionResponse (fun _ => false) ⟨9, 0, 0⟩ (CBData.ok 7)
        ⟨[], [(9, [4, 5])]⟩).st.queues (Conn.ref ⟨9, 0, 0⟩) = [5]) := by
  have h := (response_pops_oldest_or_ignores (fun _ => false) ⟨9, 0, 0⟩ (CBData.ok 7)
    ⟨[], [(9, [4, 5])]⟩).2 4 [5] (by decide)
  exact ⟨by decide, h.1, h.2.1⟩

/-- C4: the ready handler keeps at most one pool entry per endpoint
identity.  If the identity is already a pool member the newly ready
connection is closed, never registered, and the whole state is unchanged
(so it can never receive dispatched commands); if the identity is free the
connection is registered under its identity.  Key uniqueness of the pool
map is preserved. -/
theorem ready_registers_at_most_one_per_identity (c : Conn) (st : WState) :
    ((dictGet st.conns c.cid).isSome = true →
       (onConnectionReady c st).st = st
     ∧ (onConnectionReady c st).acts = [WAction.closeConn c.ref])
  ∧ (dictGet st.conns c.cid = none →
       (onConnectionReady c st).st.conns = dictSet st.conns c.cid c
     ∧ dictGet (onConnectionReady c st).st.conns c.cid = some c
     ∧ (onConnectionReady c st).acts = [])
  ∧ (keysNodup st.conns = true → keysNodup (onConnectionReady c st).st.conns = true) := by
  refine ⟨?_, ?_, ?_⟩
  · intro h
    constructor <;> simp [onConnectionReady, h]
  · intro h
    refine ⟨?_, ?_, ?_⟩ <;> simp [onConnectionReady, h, dictGet_set_self]
  · intro h
    by_cases hs : (dictGet st.conns c.cid).isSome = true
    · simp [onConnectionReady, hs, h]
    · simp only [onConnectionReady, if_neg hs]
      exact keysNodup_set st.conns c.cid c h

/-- Witness for C4: with connection 1 for endpoint (10, 4150) pooled, a
second ready connection (reference 2) to the same endpoint is closed and
the state is untouched. -/
theorem ready_registers_at_most_one_per_identity_witness :
    (dictGet (⟨[((10, 4150), ⟨1, 10, 4150⟩)], []⟩ : WState).conns
        (Conn.cid ⟨2, 10, 4150⟩)).isSome = true
  ∧ (onConnectionReady ⟨2, 10, 4150⟩ ⟨[((10, 4150), ⟨1, 10, 4150⟩)], []⟩).st
      = ⟨[((10, 4150), ⟨1, 10, 4150⟩)], []⟩
  ∧ (onConnectionReady ⟨2, 10, 4150⟩ ⟨[((10, 4150), ⟨1, 10, 4150⟩)], []⟩).acts
      = [WAction.closeConn 2] := by
  have h := (ready_registers_at_most_one_per_identity ⟨2, 10, 4150⟩
    ⟨[((10, 4150), ⟨1, 10, 4150⟩)], []⟩).1 (by decide)
  exact ⟨by decide, h.1, h.2⟩

/-- C9: initiating a connection attempt for an endpoint whose identity is
already tracked in the pool map is a complete no-op (same state, no connect
initiated), and no connection attempt ever changes the pool map, so
repeating the operation leaves the pool state equal to performing it
once. -/
theorem connect_to_tracked_endpoint_noop (newRef host port : Nat) (st : WState) :
    ((dictGet st.conns (host, port)).isSome = true →
       connectToNsqd newRef host port st = ⟨st, [], false⟩)
  ∧ (connectToNsqd newRef host port st).st.conns = st.conns
  ∧ (∀ r2, (connectToNsqd r2 host port (connectToNsqd newRef host port st).st).st.conns
       = (connectToNsqd newRef host port st).st.conns) := by
  refine ⟨?_, ?_, ?_⟩
  · intro h
    simp [connectToNsqd, h]
  · by_cases h : (dictGet st.conns (host, port)).isSome = true <;>
      simp [connectToNsqd, h]
  · intro r2
    by_cases h : (dictGet st.conns (host, port)).isSome = true <;>
      by_cases h2 : (dictGet (connectToNsqd newRef host port st).st.conns
        (host, port)).isSome = true <;>
      simp [connectToNsqd, h, h2]

/-- Witness for C9: endpoint (10, 4150) is pooled, so a fresh attempt with
reference 3 changes nothing and initiates nothing. -/
theorem connect_to_tracked_endpoint_noop_witness :
    (dictGet (⟨[((10, 4150), ⟨1, 10, 4150⟩)], [(1, [])]⟩ : WState).conns
        (10, 4150)).isSome = true
  ∧ connectToNsqd 3 10 4150 ⟨[((10, 4150), ⟨1, 10, 4150⟩)], [(1, [])]⟩
      = ⟨⟨[((10, 4150), ⟨1, 10, 4150⟩)], [(1, [])]⟩, [], false⟩ :=
  ⟨by decide, (connect_to_tracked_endpoint_noop 3 10 4150
    ⟨[((10, 4150), ⟨1, 10, 4150⟩)], [(1, [])]⟩).1 (by decide)⟩

theorem sendsOf_append (l1 l2 : List WAction) :
    sendsOf (l1 ++ l2) = sendsOf l1 ++ sendsOf l2 := by
  induction l1 with
  | nil => simp [sendsOf]
  | cons a rest ih => cases a <;> simp [sendsOf, ih]

theorem invokedCBs_append (l1 l2 : List WAction) :
    invokedCBs (l1 ++ l2) = invokedCBs l1 ++ invokedCBs l2 := by
  simp [invokedCBs, invocations_append]

theorem chosenConn_single (st : WState) (k : Nat × Nat) (c : Conn) (choice : Nat)
    (h : st.conns = [(k, c)]) : chosenConn st choice = c := by
  simp [chosenConn, h, Nat.mod_one]

theorem pubDispatch_single_pool (raises sendFails : Nat → Bool) (cb : Nat)
    (cmd : Cmd) (choice : Nat) (c : Conn) (st : WState)
    (hpool : st.conns = [(c.cid, c)]) (hsf : sendFails c.ref = false) :
    (pubDispatch raises sendFails cb cmd choice st).st.conns = st.conns
  ∧ dictGetQ (pubDispatch raises sendFails cb cmd choice st).st.queues c.ref
      = dictGetQ st.queues c.ref ++ [cb]
  ∧ (∀ r2, r2 ≠ c.ref →
      dictGetQ (pubDispatch raises sendFails cb cmd choice st).st.queues r2
        = dictGetQ st.queues r2)
  ∧ (pubDispatch raises sendFails cb cmd choice st).acts
      = [WAction.sendCmd c.ref cmd] := by
  have hc : chosenConn st choice = c := chosenConn_single st c.cid c choice hpool
  refine ⟨?_, ?_, ?_, ?_⟩
  · simp [pubDispatch, hpool, hc, hsf]
  · simp [pubDispatch, hpool, hc, hsf, dictGetQ, dictGet_set_self]
  · intro r2 hr
    simp [pubDispatch, hpool, hc, hsf, dictGetQ,
      dictGet_set_ne st.queues c.ref r2 _ hr]
  · simp [pubDispatch, hpool, hc, hsf]

theorem pubSeq_single_pool (raises sendFails : Nat → Bool) (c : Conn)
    (ps : List (Nat × Cmd × Nat)) (st : WState)
    (hpool : st.conns = [(c.cid, c)]) (hsf : sendFails c.ref = false) :
    (pubSeq raises sendFails ps st).1.conns = st.conns
  ∧ dictGetQ (pubSeq raises sendFails ps st).1.queues c.ref
      = dictGetQ st.queues c.ref ++ ps.map (fun p => p.1)
  ∧ sendsOf (pubSeq raises sendFails ps st).2
      = ps.map (fun p => (c.ref, p.2.1)) := by
  induction ps generalizing st with
  | nil => simp [pubSeq, sendsOf]
  | cons p rest ih =>
      have hstep := pubDispatch_single_pool raises sendFails p.1 p.2.1 p.2.2 c st
        hpool hsf
      have hpool2 :
          (pubDispatch raises sendFails p.1 p.2.1 p.2.2 st).st.conns
            = [(c.cid, c)] := by rw [hstep.1, hpool]
      have ih2 := ih _ hpool2
      refine ⟨?_, ?_, ?_⟩
      · rw [pubSeq]
        rw [ih2.1, hstep.1]
      · rw [pubSeq]
        rw [ih2.2.1, hstep.2.1]
        simp
      · rw [pubSeq]
        simp only [sendsOf_append, ih2.2.2, hstep.2.2.2]
        simp [sendsOf]

theorem deliverResponses_fifo (raises : Nat → Bool) (c : Conn)
    (ds : List CBData) (st : WState)
    (hlen : ds.length = (dictGetQ st.queues c.ref).length) :
    invokedCBs (deliverResponses raises c ds st).2 = dictGetQ st.queues c.ref := by
  induction ds generalizing st with
  | nil =>
      have h0 : dictGetQ st.queues c.ref = [] :=
        List.length_eq_zero.mp hlen.symm
      simp [deliverResponses, invokedCBs, invocations, h0]
  | cons d rest ih =>
      obtain ⟨cb, q, hq⟩ : ∃ cb q, dictGetQ st.queues c.ref = cb :: q := by
        cases hqq : dictGetQ st.queues c.ref with
        | nil => rw [hqq] at hlen; simp at hlen
        | cons a b => exact ⟨a, b, rfl⟩
      have h2 : (dictGet st.queues c.ref).getD [] = cb :: q := hq
      have hstep : onConnectionResponse raises c d st
          = ⟨{ st with queues := dictSet st.queues c.ref q },
             [WAction.invoke cb (some c.ref) d], raises cb⟩ := by
        simp [onConnectionResponse, hq]
      have hq2 : dictGetQ (dictSet st.queues c.ref q) c.ref = q := by
        simp [dictGetQ, dictGet_set_self]
      have hlen2 : rest.length = q.length := by
        rw [hq] at hlen
        simpa using hlen
      have ih2 := ih { st with queues := dictSet st.queues c.ref q }
        (by simpa [hq2] using hlen2)
      simp only [hq2] at ih2
      rw [deliverResponses, hstep]
      simp only [hq, invokedCBs_append, ih2]
      simp [invokedCBs, invocations]

/-- C1: with a single-connection pool, a sequence of N dispatches (each
appending its callback to the chosen connection's queue) performed before
any responses arrive sends the N commands in order, leaves the queue equal
to the N callbacks in send order, and delivering N response/error frames
then invokes exactly those N callbacks in the same order the commands were
sent. -/
theorem pub_response_callbacks_fifo (raises sendFails : Nat → Bool) (c : Conn)
    (ps : List (Nat × Cmd × Nat)) (ds : List CBData) (st : WState)
    (hpool : st.conns = [(c.cid, c)])
    (hq : dictGetQ st.queues c.ref = [])
    (hsf : sendFails c.ref = false)
    (hlen : ds.length = ps.length) :
    sendsOf (pubSeq raises sendFails ps st).2 = ps.map (fun p => (c.ref, p.2.1))
  ∧ dictGetQ (pubSeq raises sendFails ps st).1.queues c.ref
      = ps.map (fun p => p.1)
  ∧ invokedCBs
        (deliverResponses raises c ds (pubSeq raises sendFails ps st).1).2
      = ps.map (fun p => p.1) := by
  have h1 := pubSeq_single_pool raises sendFails c ps st hpool hsf
  have hqq : dictGetQ (pubSeq raises sendFails ps st).1.queues c.ref
      = ps.map (fun p => p.1) := by
    rw [h1.2.1, hq]
    simp
  refine ⟨h1.2.2, hqq, ?_⟩
  have h3 := deliverResponses_fifo raises c ds (pubSeq raises sendFails ps st).1
    (by rw [hqq]; simp [hlen])
  rw [hqq] at h3
  exact h3

/-- Witness for C1: two publishes with callbacks 21 and 22 on a
single-connection pool followed by two responses invoke 21 then 22. -/
theorem pub_response_callbacks_fifo_witness :
    (⟨[((10, 4150), ⟨1, 10, 4150⟩)], [(1, [])]⟩ : WState).conns
        = [(Conn.cid ⟨1, 10, 4150⟩, ⟨1, 10, 4150⟩)]
  ∧ dictGetQ (⟨[((10, 4150), ⟨1, 10, 4150⟩)], [(1, [])]⟩ : WState).queues
        (Conn.ref ⟨1, 10, 4150⟩) = []
  ∧ invokedCBs
        (deliverResponses (fun _ => false) ⟨1, 10, 4150⟩
          [CBData.ok 0, CBData.ok 1]
          (pubSeq (fun _ => false) (fun _ => false)
            [(21, Cmd.pubCmd 0 0, 0), (22, Cmd.pubCmd 0 1, 5)]
            ⟨[((10, 4150), ⟨1, 10, 4150⟩)], [(1, [])]⟩).1).2
      = [21, 22] := by
  have h := pub_response_callbacks_fifo (fun _ => false) (fun _ => false)
    ⟨1, 10, 4150⟩ [(21, Cmd.pubCmd 0 0, 0), (22, Cmd.pubCmd 0 1, 5)]
    [CBData.ok 0, CBData.ok 1] ⟨[((10, 4150), ⟨1, 10, 4150⟩)], [(1, [])]⟩
    (by decide) (by decide) (by decide) (by decide)
  exact ⟨by decide, by decide, h.2.2⟩

/-- C5: when `conn.send` raises during a dispatch, the dispatch invokes no
callback and lets no exception reach the caller; it closes exactly the
offending connection, having already queued the callback behind the
existing entries (other connections' queues untouched); the subsequent
close-handling path then resolves that callback exactly once, with
ConnectionClosedError. -/
theorem send_failure_closes_only_offender
    (raises sendFails : Nat → Bool) (cb : Nat) (cmd : Cmd) (choice : Nat)
    (st : WState)
    (hne : st.conns.isEmpty = false)
    (hsf : sendFails (chosenConn st choice).ref = true)
    (hcb : cb ∉ dictGetQ st.queues (chosenConn st choice).ref) :
    (pubDispatch raises sendFails cb cmd choice st).exn = false
  ∧ invocations (pubDispatch raises sendFails cb cmd choice st).acts = []
  ∧ closesOf (pubDispatch raises sendFails cb cmd choice st).acts
      = [(chosenConn st choice).ref]
  ∧ dictGetQ (pubDispatch raises sendFails cb cmd choice st).st.queues
        (chosenConn st choice).ref
      = dictGetQ st.queues (chosenConn st choice).ref ++ [cb]
  ∧ (∀ r2, r2 ≠ (chosenConn st choice).ref →
      dictGetQ (pubDispatch raises sendFails cb cmd choice st).st.queues r2
        = dictGetQ st.queues r2)
  ∧ invocations (onConnectionClose raises (chosenConn st choice)
        (pubDispatch raises sendFails cb cmd choice st).st).acts
      = (dictGetQ st.queues (chosenConn st choice).ref ++ [cb]).map
          (fun x => (x, some (chosenConn st choice).ref,
            CBData.err NsqError.connectionClosedError))
  ∧ (invokedCBs (onConnectionClose raises (chosenConn st choice)
        (pubDispatch raises sendFails cb cmd choice st).st).acts).count cb = 1 := by
  have hr : pubDispatch raises sendFails cb cmd choice st
      = ⟨{ st with queues := (dictSet st.queues (chosenConn st choice).ref
              (dictGetQ st.queues (chosenConn st choice).ref ++ [cb])) },
         [WAction.logException, WAction.closeConn (chosenConn st choice).ref],
         false⟩ := by
    simp [pubDispatch, hne, hsf]
  have hq2 : dictGetQ (pubDispatch raises sendFails cb cmd choice st).st.queues
      (chosenConn st choice).ref
      = dictGetQ st.queues (chosenConn st choice).ref ++ [cb] := by
    rw [hr]
    simp [dictGetQ, dictGet_set_self]
  have hclose : invocations (onConnectionClose raises (chosenConn st choice)
        (pubDispatch raises sendFails cb cmd choice st).st).acts
      = (dictGetQ st.queues (chosenConn st choice).ref ++ [cb]).map
          (fun x => (x, some (chosenConn st choice).ref,
            CBData.err NsqError.connectionClosedError)) := by
    simp [onConnectionClose, invocations_append, invocations_drainActs,
      invocations, hq2]
  refine ⟨?_, ?_, ?_, hq2, ?_, hclose, ?_⟩
  · rw [hr]
  · rw [hr]
    simp [invocations]
  · rw [hr]
    simp [closesOf]
  · intro r2 hr2
    rw [hr]
    simp [dictGetQ, dictGet_set_ne st.queues (chosenConn st choice).ref r2 _ hr2]
  · rw [show invokedCBs (onConnectionClose raises (chosenConn st choice)
        (pubDispatch raises sendFails cb cmd choice st).st).acts
        = dictGetQ st.queues (chosenConn st choice).ref ++ [cb] by
      simp [invokedCBs, hclose]
      show List.map (fun x => x) (dictGetQ st.queues (chosenConn st choice).ref)
          = dictGetQ st.queues (chosenConn st choice).ref
      simp]
    rw [List.count_append]
    rw [List.count_eq_zero.mpr hcb]
    simp

/-- Witness for C5: one pooled connection whose send primitive raises; the
dispatched callback 9 joins the queue behind 8 and the close path resolves
it once. -/
theorem send_failure_closes_only_offender_witness :
    (⟨[((10, 4150), ⟨1, 10, 4150⟩)], [(1, [8])]⟩ : WState).conns.isEmpty = false
  ∧ (fun _ => true) (chosenConn ⟨[((10, 4150), ⟨1, 10, 4150⟩)], [(1, [8])]⟩ 0).ref = true
  ∧ 9 ∉ dictGetQ (⟨[((10, 4150), ⟨1, 10, 4150⟩)], [(1, [8])]⟩ : WState).queues
        (chosenConn ⟨[((10, 4150), ⟨1, 10, 4150⟩)], [(1, [8])]⟩ 0).ref
  ∧ (pubDispatch (fun _ => false) (fun _ => true) 9 (Cmd.pubCmd 0 0) 0
        ⟨[((10, 4150), ⟨1, 10, 4150⟩)], [(1, [8])]⟩).exn = false
  ∧ (invokedCBs (onConnectionClose (fun _ => false)
        (chosenConn ⟨[((10, 4150), ⟨1, 10, 4150⟩)], [(1, [8])]⟩ 0)
        (pubDispatch (fun _ => false) (fun _ => true) 9 (Cmd.pubCmd 0 0) 0
          ⟨[((10, 4150), ⟨1, 10, 4150⟩)], [(1, [8])]⟩).st).acts).count 9 = 1 := by
  have h := send_failure_closes_only_offender (fun _ => false) (fun _ => true)
    9 (Cmd.pubCmd 0 0) 0 ⟨[((10, 4150), ⟨1, 10, 4150⟩)], [(1, [8])]⟩
    (by decide) (by decide) (by decide)
  exact ⟨by decide, by decide, by decide, h.1, h.2.2.2.2.2.2⟩

theorem logException_mem_drainActs (raises : Nat → Bool) (ref : Nat)
    (q : List Nat) (cb : Nat) (hm : cb ∈ q) (hr : raises cb = true) :
    WAction.logException ∈ drainActs raises ref q := by
  induction q with
  | nil => cases hm
  | cons a rest ih =>
      cases hm with
      | head => simp [drainActs, hr]
      | tail _ hm2 =>
          by_cases h : raises a = true
          · simp [drainActs, h]
          · simp only [Bool.not_eq_true] at h
            simp [drainActs, h, ih hm2]

/-- C6 counterexample: a callback that raises when invoked at the
synchronous no-connections path of `Writer._pub` propagates its exception
out of the publish call — the invocation there is not wrapped in
try/except — refuting the claim that every callback exception raised
during pool invocation is caught and logged. -/
theorem callback_exception_escapes_pub :
    (pubDispatch (fun _ => true) (fun _ => false) 0 (Cmd.pubCmd 0 0) 0
      ⟨[], []⟩).exn = true := by
  decide

/-- C6 amended: callback exceptions are caught and logged only during
close-time draining; a callback that raises at the synchronous
no-connections dispatch propagates out of publish/multiPublish, and one
that raises on response/error delivery propagates out of the response
handler (the pop and the invocation having already happened). -/
theorem callback_exception_policy
    (raises sendFails : Nat → Bool) (cb : Nat) (cmd : Cmd) (choice : Nat)
    (c : Conn) (d : CBData) (st st2 : WState) :
    (onConnectionClose raises c st).exn = false
  ∧ ((∃ cb2 ∈ dictGetQ st.queues c.ref, raises cb2 = true) →
       WAction.logException ∈ (onConnectionClose raises c st).acts)
  ∧ (st2.conns = [] → raises cb = true →
       (pubDispatch raises sendFails cb cmd choice st2).exn = true)
  ∧ (∀ q, dictGetQ st.queues c.ref = cb :: q → raises cb = true →
       (onConnectionResponse raises c d st).exn = true) := by
  refine ⟨rfl, ?_, ?_, ?_⟩
  · rintro ⟨cb2, hm, hr⟩
    simp only [onConnectionClose, List.mem_append]
    exact Or.inl (logException_mem_drainActs raises c.ref _ cb2 hm hr)
  · intro h hr
    simp [pubDispatch, h, hr]
  · intro q hq hr
    simp [onConnectionResponse, hq, hr]

/-- Witness for C6 amended: with every callback raising, the close drain
logs and does not propagate, while the no-connections path and the
response path both propagate. -/
theorem callback_exception_policy_witness :
    (∃ cb2 ∈ dictGetQ (⟨[], [(1, [3])]⟩ : WState).queues
        (Conn.ref ⟨1, 10, 4150⟩), (fun _ => true) cb2 = true)
  ∧ (onConnectionClose (fun _ => true) ⟨1, 10, 4150⟩ ⟨[], [(1, [3])]⟩).exn = false
  ∧ WAction.logException
      ∈ (onConnectionClose (fun _ => true) ⟨1, 10, 4150⟩ ⟨[], [(1, [3])]⟩).acts
  ∧ (pubDispatch (fun _ => true) (fun _ => false) 3 (Cmd.pubCmd 0 0) 0
      ⟨[], []⟩).exn = true
  ∧ (onConnectionResponse (fun _ => true) ⟨1, 10, 4150⟩ (CBData.ok 0)
      ⟨[], [(1, [3])]⟩).exn = true := by
  have h := callback_exception_policy (fun _ => true) (fun _ => false) 3
    (Cmd.pubCmd 0 0) 0 ⟨1, 10, 4150⟩ (CBData.ok 0) ⟨[], [(1, [3])]⟩ ⟨[], []⟩
  have hex : ∃ cb2 ∈ dictGetQ (⟨[], [(1, [3])]⟩ : WState).queues
      (Conn.ref ⟨1, 10, 4150⟩), (fun _ => true) cb2 = true := ⟨3, by decide, rfl⟩
  exact ⟨hex, h.1, h.2.1 hex, h.2.2.1 rfl rfl, h.2.2.2 [] (by decide) rfl⟩

/-- State and exception outcome of `Writer._pub` do not depend on which
command is being dispatched (only the sent bytes do). -/
theorem pubDispatch_cmd_independent (raises sendFails : Nat → Bool) (cb : Nat)
    (cmd1 cmd2 : Cmd) (choice : Nat) (st : WState) :
    (pubDispatch raises sendFails cb cmd1 choice st).st
      = (pubDispatch raises sendFails cb cmd2 choice st).st
  ∧ (pubDispatch raises sendFails cb cmd1 choice st).exn
      = (pubDispatch raises sendFails cb cmd2 choice st).exn := by
  by_cases h : st.conns.isEmpty <;>
    by_cases h2 : sendFails (chosenConn st choice).ref <;>
    simp [pubDispatch, h, h2]

/-- C8 counterexample: `Writer.mpub` accepts the empty list — its
assertion checks only the argument's type, never non-emptiness — and
dispatches the empty batch exactly as `_pub` would, refuting the claim
that `messages` must be a non-empty sequence. -/
theorem mpub_accepts_empty_list :
    mpub (fun _ => false) (fun _ => false) 5 1 (MsgArg.listMsg []) 0 ⟨[], []⟩
      = some (pubDispatch (fun _ => false) (fun _ => false) 5
          (Cmd.mpubCmd 1 []) 0 ⟨[], []⟩) := by
  rfl

/-- C8 amended: `mpub` wraps a single string into a one-element list and
otherwise requires only that the argument be a list, tuple or set
(emptiness is never checked and a set is unordered); any other type fails
the assertion.  Every accepted argument is dispatched through `_pub` with
the corresponding batch command, whose state evolution and exception
outcome are identical to a single publish. -/
theorem mpub_validation_and_dispatch
    (raises sendFails : Nat → Bool) (cb topic choice : Nat) (st : WState) :
    (∀ s, mpub raises sendFails cb topic (MsgArg.strMsg s) choice st
       = some (pubDispatch raises sendFails cb (Cmd.mpubCmd topic [s]) choice st))
  ∧ (∀ msgs, mpub raises sendFails cb topic (MsgArg.listMsg msgs) choice st
       = some (pubDispatch raises sendFails cb (Cmd.mpubCmd topic msgs) choice st))
  ∧ (∀ msgs, mpub raises sendFails cb topic (MsgArg.setMsg msgs) choice st
       = some (pubDispatch raises sendFails cb (Cmd.mpubCmd topic msgs) choice st))
  ∧ mpub raises sendFails cb topic MsgArg.otherMsg choice st = none
  ∧ (∀ msgs msgv,
      (mpub raises sendFails cb topic (MsgArg.listMsg msgs) choice st).map HResult.st
        = some (pub raises sendFails cb topic msgv choice st).st
    ∧ (mpub raises sendFails cb topic (MsgArg.listMsg msgs) choice st).map HResult.exn
        = some (pub raises sendFails cb topic msgv choice st).exn) := by
  refine ⟨fun s => rfl, fun msgs => rfl, fun msgs => rfl, rfl, ?_⟩
  intro msgs msgv
  have h := pubDispatch_cmd_independent raises sendFails cb
    (Cmd.mpubCmd topic msgs) (Cmd.pubCmd topic msgv) choice st
  constructor
  · simp [mpub, mpubValidate, pub, h.1]
  · simp [mpub, mpubValidate, pub, h.2]

/-- Witness for C2: closing the single pooled connection with queue
`[4, 5]` empties the pool entry, invokes 4 then 5 with
ConnectionClosedError, and schedules one reconnect after 15 units. -/
theorem close_drains_all_and_schedules_reconnect_witness :
    (0, 0) ≠ Conn.cid ⟨1, 10, 4150⟩
  ∧ dictGet (onConnectionClose (fun _ => false) ⟨1, 10, 4150⟩
        ⟨[((10, 4150), ⟨1, 10, 4150⟩)], [(1, [4, 5])]⟩).st.conns
        (Conn.cid ⟨1, 10, 4150⟩) = none
  ∧ dictGet (onConnectionClose (fun _ => false) ⟨1, 10, 4150⟩
        ⟨[((10, 4150), ⟨1, 10, 4150⟩)], [(1, [4, 5])]⟩).st.conns (0, 0)
      = dictGet (⟨[((10, 4150), ⟨1, 10, 4150⟩)], [(1, [4, 5])]⟩ : WState).conns (0, 0)
  ∧ invocations (onConnectionClose (fun _ => false) ⟨1, 10, 4150⟩
        ⟨[((10, 4150), ⟨1, 10, 4150⟩)], [(1, [4, 5])]⟩).acts
      = [(4, some 1, CBData.err NsqError.connectionClosedError),
         (5, some 1, CBData.err NsqError.connectionClosedError)]
  ∧ reconnectsOf (onConnectionClose (fun _ => false) ⟨1, 10, 4150⟩
        ⟨[((10, 4150), ⟨1, 10, 4150⟩)], [(1, [4, 5])]⟩).acts = [(10, 4150, 15)] := by
  have h := close_drains_all_and_schedules_reconnect (fun _ => false)
    ⟨1, 10, 4150⟩ ⟨[((10, 4150), ⟨1, 10, 4150⟩)], [(1, [4, 5])]⟩
  refine ⟨by decide, h.1, h.2.1 (0, 0) (by decide), ?_, h.2.2.2.2⟩
  rw [h.2.2.2.1]
  decide
